import Mathlib

/-!
Verification of the fork-replay and voting core (blockstore processor and
replay stage) against its natural-language specification.

Machine integers (`u64`, `usize`) are modelled by `Nat`: none of the code
paths treated here relies on wrap-around, and additions in the source are
plain `+` on values far below `2^64`.  Slots, hashes, public keys and
signatures are opaque identifiers, modelled by `Nat`.
-/

namespace SolanaCore

/-- A block error, from `BlockError` as used by `verify_ticks` and
`confirm_slot` in `ledger/src/blockstore_processor.rs`. -/
inductive BlockError where
  | tooManyTicks
  | tooFewTicks
  | trailingEntry
  | invalidLastTick
  | invalidTickHashCount
  | invalidEntryHash
  deriving DecidableEq, Repr

/-- Modelled from the spec: an entry is either a Tick (carries a PoH hash,
no transactions) or a Transactions entry (a list of transactions); the
external `Entry` type exposes its PoH hash and its transaction list, and
`is_tick` holds exactly when the transaction list is empty. Transactions are
opaque identifiers. -/
structure Entry where
  hash : Nat
  transactions : List Nat
  deriving DecidableEq, Repr

/-- `Entry::is_tick`: an entry with no transactions is a tick. -/
def Entry.is_tick (e : Entry) : Bool := e.transactions.isEmpty

/-- Modelled from the spec: `EntrySlice::tick_count`, the number of tick
entries in a slice. -/
def tickCount (entries : List Entry) : Nat :=
  (entries.filter fun e => e.is_tick).length

/-- `verify_ticks` from `ledger/src/blockstore_processor.rs`.  The bank is
represented by its `tick_height` and `max_tick_height`; the external
`EntrySlice::verify_tick_hash_count` check (which also advances the
`tick_hash_count` cursor through a `&mut` argument) is modelled by the
oracle pair `tickHashCountOk` (its boolean verdict) and `thcOut` (the value
it leaves in the cursor).  Returns the error, if any, together with the new
`tick_hash_count`. -/
def verify_ticks (tickHeight maxTickHeight : Nat) (entries : List Entry)
    (slotFull : Bool) (tickHashCountOk : Bool) (thcIn thcOut : Nat) :
    Option BlockError × Nat :=
  let nextBankTickHeight := tickHeight + tickCount entries
  if maxTickHeight < nextBankTickHeight then
    (some .tooManyTicks, thcIn)
  else if nextBankTickHeight < maxTickHeight && slotFull then
    (some .tooFewTicks, thcIn)
  else
    let hasTrailingEntry :=
      ((entries.getLast?.map fun e => !e.is_tick).getD false)
    if nextBankTickHeight = maxTickHeight && hasTrailingEntry then
      (some .trailingEntry, thcIn)
    else if nextBankTickHeight = maxTickHeight && !slotFull then
      (some .invalidLastTick, thcIn)
    else if !tickHashCountOk then
      (some .invalidTickHashCount, thcOut)
    else
      (none, thcOut)

/-- Whether the last entry of the slice is a non-tick entry, mirroring
`entries.last().map(|e| !e.is_tick()).unwrap_or_default()`. -/
def hasTrailing (entries : List Entry) : Bool :=
  (entries.getLast?.map fun e => !e.is_tick).getD false

/-- C6: `verify_ticks` returns `TooManyTicks` when the bank tick height plus
the entries' tick count exceeds `max_tick_height`; returns `TooFewTicks`
only when that count falls short of `max_tick_height` and the slot is full;
at exactly `max_tick_height` it returns `TrailingEntry` if the last entry is
not a tick and otherwise `InvalidLastTick` if the slot is not full; in all
remaining cases it returns `InvalidTickHashCount` exactly when the external
tick-hash-count check fails, and `Ok` otherwise. -/
theorem verify_ticks_error_cases (tickHeight maxTickHeight : Nat)
    (entries : List Entry) (slotFull tickHashCountOk : Bool)
    (thcIn thcOut : Nat) :
    (maxTickHeight < tickHeight + tickCount entries →
      (verify_ticks tickHeight maxTickHeight entries slotFull tickHashCountOk
        thcIn thcOut).1 = some .tooManyTicks)
    ∧ ((verify_ticks tickHeight maxTickHeight entries slotFull tickHashCountOk
          thcIn thcOut).1 = some .tooFewTicks →
        tickHeight + tickCount entries < maxTickHeight ∧ slotFull = true)
    ∧ (tickHeight + tickCount entries = maxTickHeight →
        hasTrailing entries = true →
        (verify_ticks tickHeight maxTickHeight entries slotFull tickHashCountOk
          thcIn thcOut).1 = some .trailingEntry)
    ∧ (tickHeight + tickCount entries = maxTickHeight →
        hasTrailing entries = false → slotFull = false →
        (verify_ticks tickHeight maxTickHeight entries slotFull tickHashCountOk
          thcIn thcOut).1 = some .invalidLastTick)
    ∧ (¬ maxTickHeight < tickHeight + tickCount entries →
        ¬ (tickHeight + tickCount entries < maxTickHeight ∧ slotFull = true) →
        ¬ (tickHeight + tickCount entries = maxTickHeight ∧
            (hasTrailing entries = true ∨ slotFull = false)) →
        ((verify_ticks tickHeight maxTickHeight entries slotFull tickHashCountOk
            thcIn thcOut).1 = some .invalidTickHashCount
          ↔ tickHashCountOk = false)
        ∧ (tickHashCountOk = true →
          (verify_ticks tickHeight maxTickHeight entries slotFull
            tickHashCountOk thcIn thcOut).1 = none)) := by
  unfold verify_ticks hasTrailing
  rcases Nat.lt_trichotomy maxTickHeight (tickHeight + tickCount entries) with
    h | h | h
  · simp [h, Nat.le_of_lt h]
    exact ⟨fun heq => absurd heq (by omega), fun heq _ => absurd heq (by omega)⟩
  · cases htr : (entries.getLast?.map fun e => !e.is_tick).getD false <;>
      cases slotFull <;> cases tickHashCountOk <;>
      simp [h, htr]
  · have hne : tickHeight + tickCount entries ≠ maxTickHeight := Nat.ne_of_lt h
    cases slotFull <;> cases tickHashCountOk <;>
      simp [h, hne, Nat.not_lt_of_lt h, Nat.lt_asymm h]

/-- Witness for `verify_ticks_error_cases` at concrete inputs: a five-tick
budget overrun yields `TooManyTicks`, and a clean partial slot yields `Ok`. -/
theorem verify_ticks_error_cases_witness :
    (verify_ticks 5 4 [] true true 0 0).1 = some .tooManyTicks
    ∧ (verify_ticks 0 4 [] false true 7 9).1 = none := by
  refine ⟨(verify_ticks_error_cases 5 4 [] true true 0 0).1 (by decide), ?_⟩
  exact (verify_ticks_error_cases 0 4 [] false true 7 9).2.2.2.2
    (by decide) (by decide) (by decide) |>.2 rfl

/-! ### Supermajority root (`supermajority_root`,
`supermajority_root_from_vote_accounts`) -/

/-- The threshold comparison `total as f64 / total_epoch_stake as f64 >
VOTE_THRESHOLD_SIZE`. Modelled from the spec: `VOTE_THRESHOLD_SIZE = 2/3`
(the constant lives in the external runtime crate), and the comparison is
taken exactly over the rationals, i.e. as `2 * totalEpochStake < 3 * total`.
For `totalEpochStake = 0` this also matches the IEEE semantics of the
source: `total / 0.0` is `+inf` (comparison true) for positive `total` and
`NaN` (comparison false) for `total = 0`. -/
def voteThresholdExceeded (total totalEpochStake : Nat) : Bool :=
  2 * totalEpochStake < 3 * total

/-- The accumulation loop of `supermajority_root`: walk the
largest-to-smallest `(root, stake)` list keeping a running stake total, and
return the first root at which the total exceeds the vote threshold.  (The
source's `assert!(*root <= prev_root)` is a sortedness debug check; the
theorems below carry sortedness as an explicit hypothesis, and the only
caller sorts.) -/
def smrGo (totalEpochStake : Nat) : List (Nat × Nat) → Nat → Option Nat
  | [], _ => none
  | (root, stake) :: rest, total =>
    if voteThresholdExceeded (total + stake) totalEpochStake then some root
    else smrGo totalEpochStake rest (total + stake)

/-- `supermajority_root` from `ledger/src/blockstore_processor.rs`:
`roots` is sorted largest to smallest by root slot. -/
def supermajority_root (roots : List (Nat × Nat)) (totalEpochStake : Nat) :
    Option Nat :=
  if roots.isEmpty then none
  else smrGo totalEpochStake roots 0

/-- Ordering used to model `roots_stakes.sort_unstable_by(|a, b|
a.0.cmp(&b.0).reverse())`: descending by the root slot. -/
def descFst (a b : Nat × Nat) : Prop := b.1 ≤ a.1

instance : DecidableRel descFst := fun a b => Nat.decLe b.1 a.1

instance : IsTotal (Nat × Nat) descFst := ⟨fun a b => Nat.le_total b.1 a.1⟩

instance : IsTrans (Nat × Nat) descFst :=
  ⟨fun _ _ _ h1 h2 => Nat.le_trans h2 h1⟩

/-- A vote account as seen by `supermajority_root_from_vote_accounts`:
`(pubkey, stake, vote_state)`, where the vote state is `none` when the
external deserialization fails and otherwise carries the account's
`root_slot`. -/
abbrev VoteAccountEntry := Nat × Nat × Option (Option Nat)

/-- The `filter_map` of `supermajority_root_from_vote_accounts`: keep
`(root_slot, stake)` for every account with nonzero stake, readable vote
state, and a recorded root. -/
def rootsStakes (accounts : List VoteAccountEntry) : List (Nat × Nat) :=
  accounts.filterMap fun a =>
    if a.2.1 = 0 then none
    else
      match a.2.2 with
      | none => none
      | some rootSlot => rootSlot.map fun r => (r, a.2.1)

/-- `supermajority_root_from_vote_accounts` from
`ledger/src/blockstore_processor.rs` (the `bank_slot` argument of the
source is used only in a log message and is omitted). -/
def supermajority_root_from_vote_accounts (accounts : List VoteAccountEntry)
    (totalEpochStake : Nat) : Option Nat :=
  supermajority_root (List.insertionSort descFst (rootsStakes accounts))
    totalEpochStake

/-- Cumulative stake of the `(root, stake)` records whose root is at least
`R` — the spec-side quantity "cumulative stake of validators whose most
recent root ≥ R". -/
def stakeWithRootGe (R : Nat) (l : List (Nat × Nat)) : Nat :=
  ((l.filter fun p => R ≤ p.1).map fun p => p.2).sum

lemma stakeWithRootGe_cons (R : Nat) (p : Nat × Nat) (l : List (Nat × Nat)) :
    stakeWithRootGe R (p :: l) =
      (if R ≤ p.1 then p.2 else 0) + stakeWithRootGe R l := by
  by_cases h : R ≤ p.1 <;> simp [stakeWithRootGe, h]

lemma stakeWithRootGe_eq_zero {R : Nat} {l : List (Nat × Nat)}
    (h : ∀ p ∈ l, p.1 < R) : stakeWithRootGe R l = 0 := by
  induction l with
  | nil => rfl
  | cons p rest ih =>
    rw [stakeWithRootGe_cons, if_neg (Nat.not_le_of_lt (h p (by simp))),
      Nat.zero_add]
    exact ih fun q hq => h q (by simp [hq])

lemma stakeWithRootGe_perm {l l' : List (Nat × Nat)} (h : l.Perm l')
    (R : Nat) : stakeWithRootGe R l = stakeWithRootGe R l' :=
  ((h.filter _).map _).sum_eq

/-- If the accumulation loop stops at root `r` and the running total so far
had not yet crossed the threshold, then the cumulative stake at `r` crosses
the threshold, no larger `R` crosses it, and `r` is one of the listed
roots — given the list is sorted descending by root. -/
lemma smrGo_some_spec {epoch : Nat} :
    ∀ {l : List (Nat × Nat)}, l.Pairwise descFst →
    ∀ {acc r : Nat}, 3 * acc ≤ 2 * epoch →
    smrGo epoch l acc = some r →
    r ∈ l.map Prod.fst
    ∧ 2 * epoch < 3 * (acc + stakeWithRootGe r l)
    ∧ ∀ R, r < R → 3 * (acc + stakeWithRootGe R l) ≤ 2 * epoch := by
  intro l
  induction l with
  | nil => intro _ acc r _ h; simp [smrGo] at h
  | cons p rest ih =>
    intro hpw acc r hacc hgo
    obtain ⟨r0, s⟩ := p
    have hrest : ∀ q ∈ rest, q.1 ≤ r0 := fun q hq =>
      (List.pairwise_cons.mp hpw).1 q hq
    rw [smrGo] at hgo
    by_cases hth : voteThresholdExceeded (acc + s) epoch
    · rw [if_pos hth] at hgo
      obtain rfl : r0 = r := by simpa using hgo
      have hth' : 2 * epoch < 3 * (acc + s) := by
        simpa [voteThresholdExceeded] using hth
      refine ⟨by simp, ?_, ?_⟩
      · rw [stakeWithRootGe_cons, if_pos (Nat.le_refl r0)]
        omega
      · intro R hR
        rw [stakeWithRootGe_cons, if_neg (by omega),
          stakeWithRootGe_eq_zero
            (fun q hq => Nat.lt_of_le_of_lt (hrest q hq) hR)]
        omega
    · rw [if_neg hth] at hgo
      have hth' : 3 * (acc + s) ≤ 2 * epoch := by
        simp [voteThresholdExceeded] at hth; omega
      obtain ⟨hmem, hcross, hmax⟩ :=
        ih (List.pairwise_cons.mp hpw).2 hth' hgo
      have hr0 : r ≤ r0 := by
        obtain ⟨q, hq, rfl⟩ := List.mem_map.mp hmem
        exact hrest q hq
      refine ⟨by simp [hmem], ?_, ?_⟩
      · rw [stakeWithRootGe_cons, if_pos hr0]; omega
      · intro R hR
        by_cases hRr0 : R ≤ r0
        · rw [stakeWithRootGe_cons, if_pos hRr0]
          have := hmax R hR; omega
        · rw [stakeWithRootGe_cons, if_neg hRr0,
            stakeWithRootGe_eq_zero
              (fun q hq => Nat.lt_of_le_of_lt (hrest q hq) (by omega))]
          omega

/-- If the accumulation loop exhausts the list without crossing the
threshold, then no root value crosses it. -/
lemma smrGo_none_spec {epoch : Nat} :
    ∀ {l : List (Nat × Nat)} {acc : Nat}, 3 * acc ≤ 2 * epoch →
    smrGo epoch l acc = none →
    ∀ R, 3 * (acc + stakeWithRootGe R l) ≤ 2 * epoch := by
  intro l
  induction l with
  | nil => intro acc hacc _ R; simp [stakeWithRootGe]; omega
  | cons p rest ih =>
    intro acc hacc hgo R
    obtain ⟨r0, s⟩ := p
    rw [smrGo] at hgo
    by_cases hth : voteThresholdExceeded (acc + s) epoch
    · rw [if_pos hth] at hgo; exact absurd hgo (by simp)
    · rw [if_neg hth] at hgo
      have hth' : 3 * (acc + s) ≤ 2 * epoch := by
        simp [voteThresholdExceeded] at hth; omega
      have := ih hth' hgo R
      rw [stakeWithRootGe_cons]
      by_cases hRr0 : R ≤ r0 <;> simp [hRr0] <;> omega

/-- C4 counterexample: with vote accounts `(root = 4, stake = 1)` and
`(root = 8, stake = 5)` and total epoch stake `10`,
`supermajority_root_from_vote_accounts` returns `None` — not `Some 8` as
claimed: the cumulative stakes are `5/10` at root 8 and `6/10` at root 4,
neither of which exceeds `2/3`. -/
theorem supermajority_root_example_returns_none :
    supermajority_root_from_vote_accounts
        [(1, 1, some (some 4)), (2, 5, some (some 8))] 10 = none
    ∧ supermajority_root_from_vote_accounts
        [(1, 1, some (some 4)), (2, 5, some (some 8))] 10 ≠ some 8 := by
  constructor <;> decide

/-- C4 (amended): on the example accounts the function returns `None`; in
general `supermajority_root_from_vote_accounts` returns the greatest root
`R` whose cumulative stake (over accounts with nonzero stake, readable vote
state and a recorded root) strictly exceeds the `2/3` vote threshold of the
epoch stake, and `None` when no root crosses the threshold. -/
theorem supermajority_root_from_vote_accounts_greatest :
    (supermajority_root_from_vote_accounts
        [(1, 1, some (some 4)), (2, 5, some (some 8))] 10 = none)
    ∧ ∀ (accounts : List VoteAccountEntry) (epoch : Nat),
        match supermajority_root_from_vote_accounts accounts epoch with
        | some r =>
            2 * epoch < 3 * stakeWithRootGe r (rootsStakes accounts)
            ∧ ∀ R, r < R →
                3 * stakeWithRootGe R (rootsStakes accounts) ≤ 2 * epoch
        | none =>
            ∀ R, 3 * stakeWithRootGe R (rootsStakes accounts) ≤ 2 * epoch := by
  refine ⟨by decide, ?_⟩
  intro accounts epoch
  have hperm : (List.insertionSort descFst (rootsStakes accounts)).Perm
      (rootsStakes accounts) := List.perm_insertionSort descFst _
  have hpw : (List.insertionSort descFst (rootsStakes accounts)).Pairwise
      descFst := List.sorted_insertionSort descFst _
  have hsge : ∀ R, stakeWithRootGe R
        (List.insertionSort descFst (rootsStakes accounts)) =
      stakeWithRootGe R (rootsStakes accounts) :=
    fun R => stakeWithRootGe_perm hperm R
  cases hgo : supermajority_root_from_vote_accounts accounts epoch with
  | some r =>
    unfold supermajority_root_from_vote_accounts supermajority_root at hgo
    by_cases hemp : (List.insertionSort descFst (rootsStakes accounts)).isEmpty
    · rw [if_pos hemp] at hgo; exact absurd hgo (by simp)
    · rw [if_neg hemp] at hgo
      obtain ⟨_, hcross, hmax⟩ := smrGo_some_spec hpw (by omega) hgo
      rw [hsge, Nat.zero_add] at hcross
      refine ⟨hcross, fun R hR => ?_⟩
      have := hmax R hR
      rw [hsge, Nat.zero_add] at this
      exact this
  | none =>
    intro R
    unfold supermajority_root_from_vote_accounts supermajority_root at hgo
    by_cases hemp : (List.insertionSort descFst (rootsStakes accounts)).isEmpty
    · have : rootsStakes accounts = [] := by
        rw [List.isEmpty_iff] at hemp
        exact (hperm.symm.trans (hemp ▸ List.Perm.refl _)).eq_nil.symm ▸ rfl
      rw [this]
      simp [stakeWithRootGe]
    · rw [if_neg hemp] at hgo
      have h0 : (3 : Nat) * 0 ≤ 2 * epoch := by omega
      have := smrGo_none_spec h0 hgo R
      rw [hsge, Nat.zero_add] at this
      exact this

/-- Witness for `supermajority_root_from_vote_accounts_greatest`: a single
account with stake 7 of 10 rooted at slot 5 yields root 5, and the
maximality conjunct instantiated at `R = 6` gives a concrete bound. -/
theorem supermajority_root_from_vote_accounts_greatest_witness :
    3 * stakeWithRootGe 6 (rootsStakes [(1, 7, some (some 5))]) ≤ 2 * 10 := by
  have h := (supermajority_root_from_vote_accounts_greatest).2
    [(1, 7, some (some 5))] 10
  exact (h : 2 * 10 < 3 * stakeWithRootGe 5 (rootsStakes [(1, 7, some (some 5))])
      ∧ ∀ R, 5 < R →
        3 * stakeWithRootGe R (rootsStakes [(1, 7, some (some 5))]) ≤ 2 * 10).2
    6 (by decide)

/-! ### `confirm_slot` and its progress cursor -/

/-- Errors surfaced by `confirm_slot` (`BlockstoreProcessorError` restricted
to the variants reachable there): entry-load failure, a block error
(tick structure or PoH entry-hash/signature verification), or a transaction
error from entry processing. -/
inductive ConfirmSlotError where
  | failedToLoadEntries
  | invalidBlock (e : BlockError)
  | processError
  deriving DecidableEq, Repr

/-- `ConfirmationProgress` from `ledger/src/blockstore_processor.rs`. -/
structure ConfirmationProgress where
  last_entry : Nat
  tick_hash_count : Nat
  num_shreds : Nat
  num_entries : Nat
  num_txs : Nat
  deriving DecidableEq, Repr

/-- Oracles for the external collaborators of `confirm_slot`: the block
store load (`get_slot_entries_with_shred_info`, yielding entries, shred
count and the slot-full flag, or failing), the external tick-hash-count
check and the cursor value it writes, the immediate status of
`start_verify`, the verdict of `verify_and_hash_transactions`, the result
of entry processing, and the final PoH `finish_verify` verdict. -/
structure ConfirmSlotOracles where
  loadResult : Option (List Entry × Nat × Bool)
  tickHashCountOk : Bool
  newTickHashCount : Nat
  startVerifyFailed : Bool
  sigVerifyOk : Bool
  processOk : Bool
  finishVerifyOk : Bool

/-- `confirm_slot` from `ledger/src/blockstore_processor.rs`, as a state
transformer on `ConfirmationProgress` (timing accumulation dropped): load
entries; verify tick structure (unless verification is skipped), which may
advance the `tick_hash_count` cursor; start PoH verification; verify
transaction signatures; process entries; poll the PoH verifier; and only
then, on full success, advance the cursor fields. -/
def confirm_slot (tickHeight maxTickHeight : Nat) (skipVerification : Bool)
    (o : ConfirmSlotOracles) (progress : ConfirmationProgress) :
    Except ConfirmSlotError Unit × ConfirmationProgress :=
  match o.loadResult with
  | none => (.error .failedToLoadEntries, progress)
  | some (entries, numShreds, slotFull) =>
    let numEntries := entries.length
    let numTxs := (entries.map fun e => e.transactions.length).sum
    let tickStep : Option BlockError × ConfirmationProgress :=
      if skipVerification then (none, progress)
      else
        let vr := verify_ticks tickHeight maxTickHeight entries slotFull
          o.tickHashCountOk progress.tick_hash_count o.newTickHashCount
        (vr.1, { progress with tick_hash_count := vr.2 })
    match tickStep with
    | (some e, p1) => (.error (.invalidBlock e), p1)
    | (none, p1) =>
      let lastEntryHash := entries.getLast?.map Entry.hash
      if !skipVerification && o.startVerifyFailed then
        (.error (.invalidBlock .invalidEntryHash), p1)
      else if !o.sigVerifyOk then
        (.error (.invalidBlock .invalidEntryHash), p1)
      else
        let processResult : Except ConfirmSlotError Unit :=
          if o.processOk then .ok () else .error .processError
        if !skipVerification && !o.finishVerifyOk then
          (.error (.invalidBlock .invalidEntryHash), p1)
        else
          match processResult with
          | .error e => (.error e, p1)
          | .ok _ =>
            (.ok (), { p1 with
              num_shreds := p1.num_shreds + numShreds,
              num_entries := p1.num_entries + numEntries,
              num_txs := p1.num_txs + numTxs,
              last_entry := lastEntryHash.getD p1.last_entry })

/-- C10: whenever `confirm_slot` returns an error — entry-load failure,
tick verification, PoH entry-hash verification, signature verification, or
transaction execution — the progress cursor fields `num_shreds`,
`num_entries`, `num_txs` and `last_entry` are unchanged; they are advanced
exactly on the `Ok` return (`tick_hash_count` is excluded). -/
theorem confirm_slot_cursor_only_on_ok (tickHeight maxTickHeight : Nat)
    (skipVerification : Bool) (o : ConfirmSlotOracles)
    (progress : ConfirmationProgress) :
    (∀ e, (confirm_slot tickHeight maxTickHeight skipVerification o
        progress).1 = .error e →
      (confirm_slot tickHeight maxTickHeight skipVerification o
            progress).2.num_shreds = progress.num_shreds
      ∧ (confirm_slot tickHeight maxTickHeight skipVerification o
            progress).2.num_entries = progress.num_entries
      ∧ (confirm_slot tickHeight maxTickHeight skipVerification o
            progress).2.num_txs = progress.num_txs
      ∧ (confirm_slot tickHeight maxTickHeight skipVerification o
            progress).2.last_entry = progress.last_entry)
    ∧ ((confirm_slot tickHeight maxTickHeight skipVerification o
          progress).1 = .ok () →
        ∃ entries numShreds slotFull,
          o.loadResult = some (entries, numShreds, slotFull)
          ∧ (confirm_slot tickHeight maxTickHeight skipVerification o
                progress).2.num_shreds = progress.num_shreds + numShreds
          ∧ (confirm_slot tickHeight maxTickHeight skipVerification o
                progress).2.num_entries = progress.num_entries + entries.length
          ∧ (confirm_slot tickHeight maxTickHeight skipVerification o
                progress).2.num_txs =
              progress.num_txs + (entries.map fun e => e.transactions.length).sum
          ∧ (confirm_slot tickHeight maxTickHeight skipVerification o
                progress).2.last_entry =
              (entries.getLast?.map Entry.hash).getD progress.last_entry) := by
  obtain ⟨load, thcOk, thcNew, svf, sig, proc, fin⟩ := o
  cases load with
  | none => simp [confirm_slot]
  | some t =>
    obtain ⟨entries, numShreds, slotFull⟩ := t
    rcases hv : verify_ticks tickHeight maxTickHeight entries slotFull thcOk
        progress.tick_hash_count thcNew with ⟨oe, thc⟩
    cases skipVerification <;> cases oe <;> cases svf <;> cases sig <;>
      cases proc <;> cases fin <;>
      simp [confirm_slot, hv] <;>
      exact ⟨entries, numShreds, ⟨rfl, rfl⟩, rfl, rfl, rfl, rfl⟩

/-- Witness for `confirm_slot_cursor_only_on_ok`: a load failure leaves the
cursor untouched, and a clean skip-verification run advances it. -/
theorem confirm_slot_cursor_only_on_ok_witness :
    (confirm_slot 0 4 false
        ⟨none, true, 0, false, true, true, true⟩
        ⟨3, 1, 4, 1, 5⟩).2.num_shreds = (4 : Nat)
    ∧ (confirm_slot 0 4 true
        ⟨some ([⟨77, [1, 2]⟩], 6, true), true, 0, false, true, true, true⟩
        ⟨3, 1, 4, 1, 5⟩).2.num_shreds = (10 : Nat) := by
  constructor
  · have h := (confirm_slot_cursor_only_on_ok 0 4 false
      ⟨none, true, 0, false, true, true, true⟩ ⟨3, 1, 4, 1, 5⟩).1
      .failedToLoadEntries rfl
    exact h.1
  · have h := (confirm_slot_cursor_only_on_ok 0 4 true
      ⟨some ([⟨77, [1, 2]⟩], 6, true), true, 0, false, true, true, true⟩
      ⟨3, 1, 4, 1, 5⟩).2 rfl
    obtain ⟨entries, numShreds, slotFull, hload, hns, _⟩ := h
    obtain ⟨rfl, rfl, rfl⟩ : entries = [⟨77, [1, 2]⟩] ∧ numShreds = 6
        ∧ slotFull = true := by
      simpa using hload.symm
    exact hns

/-! ### Entry processing (`process_entries_with_callback`) -/

/-- Any list is a permutation of one of its elements consed onto the list
with that position erased. -/
lemma perm_get_cons_eraseIdx :
    ∀ (l : List Nat) (i : Fin l.length), l.Perm (l.get i :: l.eraseIdx i)
  | _ :: _, ⟨0, _⟩ => by simp
  | a :: l, ⟨n + 1, h⟩ => by
    have ih := perm_get_cons_eraseIdx l ⟨n, Nat.lt_of_succ_lt_succ h⟩
    simpa [List.eraseIdx] using (ih.cons a).trans (List.Perm.swap _ a _)

/-- Modelled from the spec: the external `SliceRandom::shuffle` driven by
`thread_rng()` — "if `randomize` is true, shuffle the transaction list in
place".  The RNG is modelled by its stream of draws: each draw `d` selects
position `d % len` of the remaining list.  Returns the shuffled list and
the unconsumed draws.  `thread_rng()` is seeded from operating-system
entropy, so the draw stream is an input independent of the entries and the
bank state. -/
def modelShuffle : List Nat → List Nat → List Nat × List Nat
  | [], l => (l, [])
  | d :: ds, [] => ([], d :: ds)
  | d :: ds, x :: xs =>
    have hi : d % (x :: xs).length < (x :: xs).length :=
      Nat.mod_lt _ (Nat.succ_pos _)
    let r := modelShuffle ds ((x :: xs).eraseIdx (d % (x :: xs).length))
    ((x :: xs).get ⟨d % (x :: xs).length, hi⟩ :: r.1, r.2)

/-- The modelled shuffle permutes its input, for every draw stream. -/
theorem modelShuffle_perm (draws : List Nat) :
    ∀ l : List Nat, ((modelShuffle draws l).1).Perm l := by
  induction draws with
  | nil => intro l; simp [modelShuffle]
  | cons d ds ih =>
    intro l
    cases l with
    | nil => simp [modelShuffle]
    | cons x xs =>
      rw [modelShuffle]
      exact ((ih _).cons _).trans
        (perm_get_cons_eraseIdx (x :: xs)
          ⟨_, Nat.mod_lt _ (Nat.succ_pos _)⟩).symm

/-- An entry as classified by `EntryType::from`: a tick carrying its PoH
hash, or a list of (hashed) transactions. -/
inductive PEntry where
  | tick (hash : Nat)
  | transactions (txs : List Nat)
  deriving DecidableEq, Repr

/-- Observable bank effects of entry processing: an `execute_batches` call
on the current batch buffer, and a `register_tick` call. -/
inductive PEvent where
  | executedBatches (bs : List (List Nat))
  | registeredTick (h : Nat)
  deriving DecidableEq, Repr

/-- The transaction list a `Transactions` entry contributes: shuffled by the
RNG draw stream when `randomize` is set, unchanged otherwise; also returns
the unconsumed draws. -/
def shuffledTxs (randomize : Bool) (draws txs : List Nat) :
    List Nat × List Nat :=
  if randomize then modelShuffle draws txs else (txs, draws)

/-- The loop state of `process_entries_with_callback`: the batch buffer of
successfully locked transaction groups, the pending tick-hash queue, the
bank's tick height (advanced by `register_tick`), the trace of bank
effects, and the unconsumed RNG draws. -/
structure PEState where
  batches : List (List Nat)
  tickHashes : List Nat
  tickHeight : Nat
  events : List PEvent
  draws : List Nat
  deriving Repr

/-- The bank collaborators of `process_entries_with_callback`:
`is_block_boundary` on a tick height, the verdict of
`first_err(batch.lock_results())` for `prepare_hashed_batch` given the
batches currently holding account locks (`none` = all locks acquired,
`some e` = first lock error `e`), and the result of `execute_batches`
on a batch buffer (`none` = success). -/
structure PEBank where
  isBlockBoundary : Nat → Bool
  lockRes : List (List Nat) → List Nat → Option Nat
  execRes : List (List Nat) → Option Nat

/-- The entry loop of `process_entries_with_callback` from
`ledger/src/blockstore_processor.rs`.  Ticks are queued and, at a block
boundary, the batch buffer is flushed and all queued ticks registered.
Transaction entries are (optionally) shuffled, then locked as one batch:
on success the batch is buffered; on failure with a non-empty buffer the
buffer is flushed and the lock retried; on failure with an empty buffer
the lock error is returned.  At the end of the entry stream the remaining
buffer is flushed and trailing ticks registered.  Returns the final state
and the error, if any. -/
def processEntriesGo (bank : PEBank) (randomize : Bool) :
    List PEntry → PEState → PEState × Option Nat
  | [], s =>
    let s1 := { s with events := s.events ++ [.executedBatches s.batches] }
    match bank.execRes s.batches with
    | some e => (s1, some e)
    | none =>
      ({ s1 with
          batches := [], tickHashes := [],
          tickHeight := s1.tickHeight + s1.tickHashes.length,
          events := s1.events ++ s1.tickHashes.map PEvent.registeredTick },
        none)
  | .tick h :: rest, s =>
    let ths := s.tickHashes ++ [h]
    if bank.isBlockBoundary (s.tickHeight + ths.length) then
      let s1 := { s with events := s.events ++ [.executedBatches s.batches] }
      match bank.execRes s.batches with
      | some e => (s1, some e)
      | none =>
        processEntriesGo bank randomize rest
          { s1 with
            batches := [], tickHashes := [],
            tickHeight := s1.tickHeight + ths.length,
            events := s1.events ++ ths.map PEvent.registeredTick }
    else
      processEntriesGo bank randomize rest { s with tickHashes := ths }
  | .transactions txs :: rest, s =>
    let sh := shuffledTxs randomize s.draws txs
    let s0 := { s with draws := sh.2 }
    match bank.lockRes s0.batches sh.1 with
    | none =>
      processEntriesGo bank randomize rest
        { s0 with batches := s0.batches ++ [sh.1] }
    | some lockErr =>
      if s0.batches.isEmpty then (s0, some lockErr)
      else
        let s1 := { s0 with
          events := s0.events ++ [.executedBatches s0.batches] }
        match bank.execRes s0.batches with
        | some e => (s1, some e)
        | none =>
          let s2 := { s1 with batches := [] }
          match bank.lockRes [] sh.1 with
          | none =>
            processEntriesGo bank randomize rest { s2 with batches := [sh.1] }
          | some lockErr2 => (s2, some lockErr2)

/-- `process_entries_with_callback`, entered with an empty batch buffer and
tick queue at the bank's current tick height, with the RNG draw stream as
an explicit input. -/
def process_entries_with_callback (bank : PEBank) (randomize : Bool)
    (tickHeight : Nat) (draws : List Nat) (entries : List PEntry) :
    PEState × Option Nat :=
  processEntriesGo bank randomize entries
    ⟨[], [], tickHeight, [], draws⟩

/-- A bank whose locks always succeed, executions always succeed, and which
never hits a block boundary. -/
def plainBank : PEBank := ⟨fun _ => false, fun _ _ => none, fun _ => none⟩

/-- A bank whose account locks always fail with error 7. -/
def lockFailBank : PEBank := ⟨fun _ => false, fun _ _ => some 7, fun _ => none⟩

/-- C5 counterexample: the transaction order produced by
`process_entries_with_callback` with `randomize = true` is not a function
of the entry slice and bank state alone — the shuffle is driven by
`thread_rng()`, whose draw stream is seeded from OS entropy, not
deterministically per call.  Two runs on the same inputs with different
RNG draw streams batch the entry `[1, 2]` in different orders. -/
theorem shuffle_order_differs_across_runs :
    (process_entries_with_callback plainBank true 0 [1]
      [.transactions [1, 2]]).1.events
    ≠ (process_entries_with_callback plainBank true 0 [0]
      [.transactions [1, 2]]).1.events := by
  decide

/-- C5 (amended): the in-place shuffle is driven by the thread-local RNG's
draw stream, an input independent of the entry slice and bank state, so two
runs on the same inputs may produce different transaction orders (second
conjunct); for every draw stream, however, the shuffled list is a
permutation of the entry's transaction list, so the multiset of
transactions processed is input-determined (first conjunct). -/
theorem shuffle_is_rng_driven_permutation :
    (∀ draws txs : List Nat, ((modelShuffle draws txs).1).Perm txs)
    ∧ ∃ d1 d2 : List Nat,
        (process_entries_with_callback plainBank true 0 d1
          [.transactions [1, 2]]).1.events
        ≠ (process_entries_with_callback plainBank true 0 d2
          [.transactions [1, 2]]).1.events :=
  ⟨modelShuffle_perm, [1], [0], by decide⟩

/-- C7: how `process_entries_with_callback` treats each `Transactions`
entry and the end of the entry stream. (1) If locking the whole (shuffled)
entry over the current buffer succeeds, the batch is pushed and processing
moves to the next entry. (2) If locking fails on an empty buffer, the lock
error is returned. (3) If locking fails on a non-empty buffer, the buffered
batches are executed and the lock is retried against released locks; on
retry success processing continues with the new batch alone, on retry
failure the lock error is returned, and an execution error propagates.
(4) At the end of the stream the remaining batches are executed and the
queued tick hashes are registered in order. -/
theorem process_entries_lock_flush_retry (bank : PEBank) (randomize : Bool)
    (txs : List Nat) (rest : List PEntry) (s : PEState) :
    (bank.lockRes s.batches (shuffledTxs randomize s.draws txs).1 = none →
      processEntriesGo bank randomize (.transactions txs :: rest) s
        = processEntriesGo bank randomize rest
            { s with
              batches := s.batches ++ [(shuffledTxs randomize s.draws txs).1],
              draws := (shuffledTxs randomize s.draws txs).2 })
    ∧ (∀ e, bank.lockRes s.batches (shuffledTxs randomize s.draws txs).1
          = some e → s.batches = [] →
        processEntriesGo bank randomize (.transactions txs :: rest) s
          = ({ s with draws := (shuffledTxs randomize s.draws txs).2 },
             some e))
    ∧ (∀ e, bank.lockRes s.batches (shuffledTxs randomize s.draws txs).1
          = some e → s.batches ≠ [] →
        (bank.execRes s.batches = none →
          (bank.lockRes [] (shuffledTxs randomize s.draws txs).1 = none →
            processEntriesGo bank randomize (.transactions txs :: rest) s
              = processEntriesGo bank randomize rest
                  { s with
                    batches := [(shuffledTxs randomize s.draws txs).1],
                    events := s.events ++ [.executedBatches s.batches],
                    draws := (shuffledTxs randomize s.draws txs).2 })
          ∧ (∀ e2, bank.lockRes [] (shuffledTxs randomize s.draws txs).1
                = some e2 →
              processEntriesGo bank randomize (.transactions txs :: rest) s
                = ({ s with
                      batches := [],
                      events := s.events ++ [.executedBatches s.batches],
                      draws := (shuffledTxs randomize s.draws txs).2 },
                   some e2)))
        ∧ (∀ e2, bank.execRes s.batches = some e2 →
            processEntriesGo bank randomize (.transactions txs :: rest) s
              = ({ s with
                    events := s.events ++ [.executedBatches s.batches],
                    draws := (shuffledTxs randomize s.draws txs).2 },
                 some e2)))
    ∧ (bank.execRes s.batches = none →
        processEntriesGo bank randomize [] s
          = ({ s with
                batches := [], tickHashes := [],
                tickHeight := s.tickHeight + s.tickHashes.length,
                events := s.events ++ [.executedBatches s.batches]
                  ++ s.tickHashes.map PEvent.registeredTick },
             none))
    ∧ (∀ e, bank.execRes s.batches = some e →
        processEntriesGo bank randomize [] s
          = ({ s with events := s.events ++ [.executedBatches s.batches] },
             some e)) := by
  refine ⟨?_, ?_, ?_, ?_, ?_⟩
  · intro hlock
    rw [processEntriesGo]
    simp only [hlock]
  · intro e hlock hemp
    rw [processEntriesGo]
    rw [hemp] at hlock ⊢
    simp only [hlock, List.isEmpty_nil, if_true]
  · intro e hlock hne
    have hne' : s.batches.isEmpty = false := by
      cases hb : s.batches with
      | nil => exact absurd hb hne
      | cons a l => simp
    constructor
    · intro hexec
      constructor
      · intro hlock2
        rw [processEntriesGo]
        simp only [hlock, hne', hexec, hlock2, Bool.false_eq_true, if_false]
      · intro e2 hlock2
        rw [processEntriesGo]
        simp only [hlock, hne', hexec, hlock2, Bool.false_eq_true, if_false]
    · intro e2 hexec
      rw [processEntriesGo]
      simp only [hlock, hne', hexec, Bool.false_eq_true, if_false]
  · intro hexec
    rw [processEntriesGo]
    simp only [hexec, List.append_assoc, List.singleton_append]
  · intro e hexec
    rw [processEntriesGo]
    simp only [hexec]

/-- Witness for `process_entries_lock_flush_retry`: a self-conflicting
entry on an empty buffer returns the lock error. -/
theorem process_entries_lock_flush_retry_witness :
    processEntriesGo lockFailBank false [.transactions [5]]
      ⟨[], [], 0, [], []⟩ = (⟨[], [], 0, [], []⟩, some 7) := by
  have h := process_entries_lock_flush_retry lockFailBank false [5] []
    ⟨[], [], 0, [], []⟩
  exact h.2.1 7 rfl rfl

/-! ### Parallel batch execution (`first_err`, `get_first_error`,
`execute_batch`, `execute_batches`) -/

/-- `first_err` from `ledger/src/blockstore_processor.rs`: the first error
in a result slice, in slice order.  A transaction `Result<()>` is modelled
as `Option Nat` (`none` = `Ok`, `some e` = the error `e`). -/
def first_err : List (Option Nat) → Option Nat
  | [] => none
  | some e :: _ => some e
  | none :: rest => first_err rest

/-- `get_first_error` from `ledger/src/blockstore_processor.rs`: walk the
per-transaction fee-collection results zipped with the transactions'
(first) signatures; the first error-signature pair is returned, and every
error-signature pair is logged (second component: the emitted warnings, in
order). -/
def get_first_error : List (Option Nat × Nat) →
    Option (Nat × Nat) × List (Nat × Nat)
  | [] => (none, [])
  | (some e, sig) :: rest =>
    let r := get_first_error rest
    (some (e, sig), (e, sig) :: r.2)
  | (none, _) :: rest => get_first_error rest

/-- The result of `execute_batch` for one batch, given its per-transaction
fee-collection results and signatures:
`first_err.map(|(result, _)| result).unwrap_or(Ok(()))`.  The bank
execution itself is external; a batch is represented by its results. -/
def execute_batch (b : List (Option Nat × Nat)) : Option Nat :=
  ((get_first_error b).1).map fun p => p.1

/-- Modelled from the spec: rayon's indexed parallel
`into_par_iter().map(...).unzip()` in `execute_batches` — workers complete
in some schedule order `sched`, but each batch's result is written at that
batch's own index, so the collected result vector is in batch construction
order.  Unfilled slots (impossible when `sched` covers every index) read
as `Ok`. -/
def collectResults (batches : List (List (Option Nat × Nat)))
    (sched : List Nat) : List (Option (Option Nat)) :=
  sched.foldl
    (fun acc i =>
      match batches[i]? with
      | some b => acc.set i (some (execute_batch b))
      | none => acc)
    (List.replicate batches.length none)

/-- `execute_batches` from `ledger/src/blockstore_processor.rs`: execute
all batches in parallel (under completion schedule `sched`) and return the
first error in batch-construction order. -/
def execute_batches (batches : List (List (Option Nat × Nat)))
    (sched : List Nat) : Option Nat :=
  first_err ((collectResults batches sched).map fun o => o.getD none)

lemma collectResults_fold_getElem (batches : List (List (Option Nat × Nat))) :
    ∀ (sched : List Nat) (acc : List (Option (Option Nat))),
    acc.length = batches.length → ∀ j,
    (sched.foldl
      (fun acc i =>
        match batches[i]? with
        | some b => acc.set i (some (execute_batch b))
        | none => acc) acc)[j]?
    = if j ∈ sched ∧ j < batches.length then
        (batches[j]?).map fun b => some (execute_batch b)
      else acc[j]? := by
  intro sched
  induction sched with
  | nil => intro acc _ j; simp
  | cons i sched' ih =>
    intro acc hlen j
    have hlen' : (match batches[i]? with
        | some b => acc.set i (some (execute_batch b))
        | none => acc).length = batches.length := by
      cases batches[i]? <;> simp [hlen]
    rw [List.foldl_cons, ih _ hlen' j]
    by_cases hmem : j ∈ sched'
    · by_cases hj : j < batches.length
      · simp [hmem, hj]
      · simp only [hmem, hj, and_true, and_false, if_false]
        cases hbi : batches[i]? with
        | none => rfl
        | some b =>
          have hi : i < batches.length :=
            (List.getElem?_eq_some_iff.mp hbi).1
          have hij : ¬ i = j := fun h => hj (h ▸ hi)
          rw [List.getElem?_set, if_neg hij]
    · by_cases hij : i = j
      · subst hij
        by_cases hj : i < batches.length
        · have hbi : batches[i]? = some batches[i] :=
            List.getElem?_eq_getElem hj
          simp only [hbi, hmem, false_and, if_false, List.getElem?_set,
            if_pos rfl, hlen, hj, if_true, List.mem_cons, true_or, true_and]
          rfl
        · have hbi : batches[i]? = none :=
            List.getElem?_eq_none (Nat.le_of_not_lt hj)
          simp only [hbi, hmem, false_and, if_false, hj, and_false]
      · have hjcons : ¬ j ∈ i :: sched' := by
          intro hc
          rcases List.mem_cons.mp hc with h | h
          · exact hij h.symm
          · exact hmem h
        simp only [hmem, false_and, if_false, hjcons]
        cases hbi : batches[i]? with
        | none => rfl
        | some b => rw [List.getElem?_set, if_neg hij]

/-- When the completion schedule covers every batch index, the collected
result vector is exactly the batch results in construction order. -/
lemma collectResults_perm (batches : List (List (Option Nat × Nat)))
    (sched : List Nat) (hperm : sched.Perm (List.range batches.length)) :
    (collectResults batches sched).map (fun o => o.getD none)
      = batches.map execute_batch := by
  apply List.ext_getElem?
  intro j
  rw [List.getElem?_map, List.getElem?_map]
  have hmem : j ∈ sched ↔ j < batches.length := by
    rw [hperm.mem_iff, List.mem_range]
  have hrep : (List.replicate batches.length
      (none : Option (Option Nat))).length = batches.length := by simp
  rw [collectResults, collectResults_fold_getElem batches sched _ hrep j]
  by_cases hj : j < batches.length
  · have hbj : batches[j]? = some batches[j] := List.getElem?_eq_getElem hj
    simp [hmem.mpr hj, hj, hbj]
  · have hbj : batches[j]? = none :=
      List.getElem?_eq_none (Nat.le_of_not_lt hj)
    have hns : ¬ j ∈ sched := fun h => hj (hmem.mp h)
    simp [hns, hbj, List.getElem?_replicate, hj]

lemma first_err_none_iff :
    ∀ rs : List (Option Nat), first_err rs = none ↔ ∀ r ∈ rs, r = none := by
  intro rs
  induction rs with
  | nil => simp [first_err]
  | cons r rest ih =>
    cases r with
    | some e => simp [first_err]
    | none => simpa [first_err] using ih

lemma first_err_some_spec :
    ∀ (rs : List (Option Nat)) (e : Nat), first_err rs = some e →
    ∃ i : Nat, rs[i]? = some (some e) ∧ ∀ j : Nat, j < i → rs[j]? = some none := by
  intro rs
  induction rs with
  | nil => intro e h; simp [first_err] at h
  | cons r rest ih =>
    intro e h
    cases r with
    | some e' =>
      obtain rfl : e' = e := by simpa [first_err] using h
      exact ⟨0, by simp, fun j hj => absurd hj (Nat.not_lt_zero j)⟩
    | none =>
      obtain ⟨i, hi, hlt⟩ := ih e (by simpa [first_err] using h)
      refine ⟨i + 1, by simpa using hi, fun j hj => ?_⟩
      cases j with
      | zero => simp
      | succ j' => simpa using hlt j' (Nat.lt_of_succ_lt_succ hj)

lemma get_first_error_none_iff :
    ∀ b : List (Option Nat × Nat),
    (get_first_error b).1 = none ↔ ∀ p ∈ b, p.1 = none := by
  intro b
  induction b with
  | nil => simp [get_first_error]
  | cons p rest ih =>
    obtain ⟨r, sig⟩ := p
    cases r with
    | some e => simp [get_first_error]
    | none => simpa [get_first_error] using ih

lemma get_first_error_some_spec :
    ∀ (b : List (Option Nat × Nat)) (e sig : Nat),
    (get_first_error b).1 = some (e, sig) →
    ∃ i : Nat, b[i]? = some (some e, sig)
      ∧ ∀ j : Nat, j < i → ∃ s2 : Nat, b[j]? = some (none, s2) := by
  intro b
  induction b with
  | nil => intro e sig h; simp [get_first_error] at h
  | cons p rest ih =>
    intro e sig h
    obtain ⟨r, sig'⟩ := p
    cases r with
    | some e' =>
      obtain ⟨rfl, rfl⟩ : e' = e ∧ sig' = sig := by
        simpa [get_first_error] using h
      exact ⟨0, by simp, fun j hj => absurd hj (Nat.not_lt_zero j)⟩
    | none =>
      obtain ⟨i, hi, hlt⟩ := ih e sig (by simpa [get_first_error] using h)
      refine ⟨i + 1, by simpa using hi, fun j hj => ?_⟩
      cases j with
      | zero => exact ⟨sig', by simp⟩
      | succ j' => simpa using hlt j' (Nat.lt_of_succ_lt_succ hj)

lemma get_first_error_logs :
    ∀ b : List (Option Nat × Nat),
    (get_first_error b).2 = b.filterMap fun p => p.1.map fun e => (e, p.2) := by
  intro b
  induction b with
  | nil => rfl
  | cons p rest ih =>
    obtain ⟨r, sig⟩ := p
    cases r with
    | some e => simp [get_first_error, ih]
    | none => simp [get_first_error, ih]

/-- C8: `execute_batches` returns `Ok` exactly when every batch's result is
`Ok`; otherwise it returns the error of the first failing batch in batch
construction order, independent of the completion schedule of the parallel
workers; within one batch, the returned error is that of the first failing
transaction in transaction order, and every failing transaction (including
the first) is only logged beyond that. -/
theorem execute_batches_first_error
    (batches : List (List (Option Nat × Nat))) (sched : List Nat)
    (hperm : sched.Perm (List.range batches.length)) :
    execute_batches batches sched = first_err (batches.map execute_batch)
    ∧ (execute_batches batches sched = none ↔
        ∀ b ∈ batches, execute_batch b = none)
    ∧ (∀ e, execute_batches batches sched = some e →
        ∃ (i : Nat) (b : List (Option Nat × Nat)),
          batches[i]? = some b ∧ execute_batch b = some e
          ∧ ∀ j : Nat, j < i → ∃ b2, batches[j]? = some b2
              ∧ execute_batch b2 = none)
    ∧ ∀ b : List (Option Nat × Nat),
        ((get_first_error b).1 = none ↔ ∀ p ∈ b, p.1 = none)
        ∧ (∀ e sig, (get_first_error b).1 = some (e, sig) →
            ∃ i : Nat, b[i]? = some (some e, sig)
              ∧ ∀ j : Nat, j < i → ∃ s2 : Nat, b[j]? = some (none, s2))
        ∧ (get_first_error b).2
            = b.filterMap fun p => p.1.map fun e => (e, p.2) := by
  have heq : execute_batches batches sched
      = first_err (batches.map execute_batch) := by
    rw [execute_batches, collectResults_perm batches sched hperm]
  refine ⟨heq, ?_, ?_, ?_⟩
  · rw [heq, first_err_none_iff]
    constructor
    · intro h b hb
      exact h (execute_batch b) (List.mem_map_of_mem _ hb)
    · intro h r hr
      obtain ⟨b, hb, rfl⟩ := List.mem_map.mp hr
      exact h b hb
  · intro e he
    rw [heq] at he
    obtain ⟨i, hi, hlt⟩ := first_err_some_spec _ e he
    rw [List.getElem?_map] at hi
    obtain ⟨b, hb, hbe⟩ := Option.map_eq_some'.mp hi
    refine ⟨i, b, hb, hbe, fun j hj => ?_⟩
    have := hlt j hj
    rw [List.getElem?_map] at this
    obtain ⟨b2, hb2, hb2e⟩ := Option.map_eq_some'.mp this
    exact ⟨b2, hb2, hb2e⟩
  · intro b
    exact ⟨get_first_error_none_iff b,
      fun e sig => get_first_error_some_spec b e sig,
      get_first_error_logs b⟩

/-- Witness for `execute_batches_first_error`: two batches completing in
reversed schedule order still yield the first batch-order error. -/
theorem execute_batches_first_error_witness :
    execute_batches [[((none : Option Nat), 9)], [(some 3, 8)]] [1, 0]
      = first_err ([[((none : Option Nat), 9)], [(some 3, 8)]].map
          execute_batch) :=
  (execute_batches_first_error [[(none, 9)], [(some 3, 8)]] [1, 0]
    (by decide)).1

/-! ### Vote selection (`select_vote_and_reset_forks`,
`core/src/replay_stage.rs`) -/

/-- `SwitchForkDecision` from the consensus module (external to the staged
files); payloads are opaque. -/
inductive SwitchForkDecision where
  | sameFork
  | switchProof (hash : Nat)
  | failedSwitchThreshold (switchStake totalStake : Nat)
  | failedSwitchDuplicateRollback (latestDuplicateAncestor : Nat)
  deriving DecidableEq, Repr

/-- Modelled from the spec: `SwitchForkDecision::can_vote` (consensus
module) — voting is off the table exactly for the two failed-switch
decisions; `SameFork` and `SwitchProof` may vote. -/
def SwitchForkDecision.can_vote : SwitchForkDecision → Bool
  | .failedSwitchThreshold _ _ => false
  | .failedSwitchDuplicateRollback _ => false
  | .sameFork => true
  | .switchProof _ => true

/-- `HeaviestForkFailures` from `core/src/replay_stage.rs`. -/
inductive HeaviestForkFailures where
  | lockedOut (slot : Nat)
  | failedThreshold (slot : Nat)
  | failedSwitchThreshold (slot : Nat)
  | noPropagatedConfirmation (slot : Nat)
  deriving DecidableEq, Repr

/-- The progress-map lookups `select_vote_and_reset_forks` performs, as
functions of the bank slot: `fork_stats.is_locked_out`,
`fork_stats.vote_threshold`, `propagated_stats.is_leader_slot`, and
`ProgressMap::is_propagated`.  Banks are identified by their slot. -/
structure VoteSelectionCtx where
  is_locked_out : Nat → Bool
  vote_threshold : Nat → Bool
  is_leader_slot : Nat → Bool
  is_propagated : Nat → Bool

/-- `SelectVoteAndResetForkResult` from `core/src/replay_stage.rs`. -/
structure SelectVoteAndResetForkResult where
  vote_bank : Option (Nat × SwitchForkDecision)
  reset_bank : Option Nat
  heaviest_fork_failures : List HeaviestForkFailures
  deriving DecidableEq, Repr

/-- `select_vote_and_reset_forks` from `core/src/replay_stage.rs`,
parameterized by the switch decision `tower.check_switch_threshold`
computed (the decision is produced by the external consensus module). -/
def select_vote_and_reset_forks (heaviest_bank : Nat)
    (heaviest_bank_on_same_voted_fork : Option Nat)
    (decision : SwitchForkDecision) (ctx : VoteSelectionCtx) :
    SelectVoteAndResetForkResult :=
  let step1 : List HeaviestForkFailures ×
      Option (Nat × SwitchForkDecision) :=
    match decision with
    | .failedSwitchThreshold _ _ =>
      ([.failedSwitchThreshold heaviest_bank],
        heaviest_bank_on_same_voted_fork.map fun b => (b, decision))
    | .failedSwitchDuplicateRollback _ =>
      ([.failedSwitchThreshold heaviest_bank],
        some (heaviest_bank, decision))
    | _ => ([], some (heaviest_bank, decision))
  match step1 with
  | (failureReasons, some (bank, d)) =>
    let is_locked_out := ctx.is_locked_out bank
    let vote_threshold := ctx.vote_threshold bank
    let propagation_confirmed :=
      ctx.is_leader_slot bank || ctx.is_propagated bank
    let failures := failureReasons
      ++ (if is_locked_out then [.lockedOut bank] else [])
      ++ (if !vote_threshold then [.failedThreshold bank] else [])
      ++ (if !propagation_confirmed then [.noPropagatedConfirmation bank]
          else [])
    if !is_locked_out && vote_threshold && propagation_confirmed
        && d.can_vote then
      { vote_bank := some (bank, d), reset_bank := some bank,
        heaviest_fork_failures := failures }
    else
      { vote_bank := none, reset_bank := some bank,
        heaviest_fork_failures := failures }
  | (failureReasons, none) =>
    { vote_bank := none, reset_bank := none,
      heaviest_fork_failures := failureReasons }

/-- C2: on `FailedSwitchThreshold` the vote bank is `None` and the reset
bank is the heaviest bank on the last-voted fork (`None` when absent), and
the switch failure is recorded; on `FailedSwitchDuplicateRollback` the vote
bank is `None` and the reset bank is the heaviest bank itself; otherwise
the candidate is the heaviest bank, the vote bank is `Some` exactly when
not locked out, the vote threshold passes and propagation is confirmed
(leader slot or propagated), the reset bank is the candidate regardless,
and each failed condition is recorded in the failures list. -/
theorem select_vote_and_reset_forks_cases (heaviest : Nat)
    (onVotedFork : Option Nat) (decision : SwitchForkDecision)
    (ctx : VoteSelectionCtx) :
    (∀ a b, decision = .failedSwitchThreshold a b →
      (select_vote_and_reset_forks heaviest onVotedFork decision
          ctx).vote_bank = none
      ∧ (select_vote_and_reset_forks heaviest onVotedFork decision
          ctx).reset_bank = onVotedFork
      ∧ .failedSwitchThreshold heaviest ∈
          (select_vote_and_reset_forks heaviest onVotedFork decision
            ctx).heaviest_fork_failures)
    ∧ (∀ d, decision = .failedSwitchDuplicateRollback d →
        (select_vote_and_reset_forks heaviest onVotedFork decision
            ctx).vote_bank = none
        ∧ (select_vote_and_reset_forks heaviest onVotedFork decision
            ctx).reset_bank = some heaviest
        ∧ .failedSwitchThreshold heaviest ∈
            (select_vote_and_reset_forks heaviest onVotedFork decision
              ctx).heaviest_fork_failures)
    ∧ (decision.can_vote = true →
        (select_vote_and_reset_forks heaviest onVotedFork decision
            ctx).reset_bank = some heaviest
        ∧ ((select_vote_and_reset_forks heaviest onVotedFork decision
              ctx).vote_bank = some (heaviest, decision)
            ↔ ctx.is_locked_out heaviest = false
              ∧ ctx.vote_threshold heaviest = true
              ∧ (ctx.is_leader_slot heaviest || ctx.is_propagated heaviest)
                  = true)
        ∧ ((select_vote_and_reset_forks heaviest onVotedFork decision
              ctx).vote_bank = none
            ↔ ¬ (ctx.is_locked_out heaviest = false
              ∧ ctx.vote_threshold heaviest = true
              ∧ (ctx.is_leader_slot heaviest || ctx.is_propagated heaviest)
                  = true))
        ∧ (.lockedOut heaviest ∈
            (select_vote_and_reset_forks heaviest onVotedFork decision
              ctx).heaviest_fork_failures
            ↔ ctx.is_locked_out heaviest = true)
        ∧ (.failedThreshold heaviest ∈
            (select_vote_and_reset_forks heaviest onVotedFork decision
              ctx).heaviest_fork_failures
            ↔ ctx.vote_threshold heaviest = false)
        ∧ (.noPropagatedConfirmation heaviest ∈
            (select_vote_and_reset_forks heaviest onVotedFork decision
              ctx).heaviest_fork_failures
            ↔ (ctx.is_leader_slot heaviest || ctx.is_propagated heaviest)
                = false)) := by
  refine ⟨?_, ?_, ?_⟩
  · rintro a b rfl
    cases onVotedFork with
    | none => simp [select_vote_and_reset_forks]
    | some bk =>
      cases h1 : ctx.is_locked_out bk <;>
        cases h2 : ctx.vote_threshold bk <;>
        cases h3 : ctx.is_leader_slot bk <;>
        cases h4 : ctx.is_propagated bk <;>
        simp [select_vote_and_reset_forks, SwitchForkDecision.can_vote,
          h1, h2, h3, h4]
  · rintro d rfl
    cases h1 : ctx.is_locked_out heaviest <;>
      cases h2 : ctx.vote_threshold heaviest <;>
      cases h3 : ctx.is_leader_slot heaviest <;>
      cases h4 : ctx.is_propagated heaviest <;>
      simp [select_vote_and_reset_forks, SwitchForkDecision.can_vote,
        h1, h2, h3, h4]
  · intro hcv
    cases decision with
    | failedSwitchThreshold a b => simp [SwitchForkDecision.can_vote] at hcv
    | failedSwitchDuplicateRollback d =>
      simp [SwitchForkDecision.can_vote] at hcv
    | sameFork =>
      cases h1 : ctx.is_locked_out heaviest <;>
        cases h2 : ctx.vote_threshold heaviest <;>
        cases h3 : ctx.is_leader_slot heaviest <;>
        cases h4 : ctx.is_propagated heaviest <;>
        simp [select_vote_and_reset_forks, SwitchForkDecision.can_vote,
          h1, h2, h3, h4]
    | switchProof hh =>
      cases h1 : ctx.is_locked_out heaviest <;>
        cases h2 : ctx.vote_threshold heaviest <;>
        cases h3 : ctx.is_leader_slot heaviest <;>
        cases h4 : ctx.is_propagated heaviest <;>
        simp [select_vote_and_reset_forks, SwitchForkDecision.can_vote,
          h1, h2, h3, h4]

/-- Witness for `select_vote_and_reset_forks_cases`: with every condition
passing, a `SameFork` decision votes on the heaviest bank. -/
theorem select_vote_and_reset_forks_cases_witness :
    (select_vote_and_reset_forks 11 (some 9) .sameFork
      ⟨fun _ => false, fun _ => true, fun _ => false, fun _ => true⟩).vote_bank
    = some (11, .sameFork) := by
  have h := (select_vote_and_reset_forks_cases 11 (some 9) .sameFork
    ⟨fun _ => false, fun _ => true, fun _ => false, fun _ => true⟩).2.2 rfl
  exact h.2.1.mpr ⟨rfl, rfl, rfl⟩

/-! ### Gossip duplicate-confirmed ingestion
(`process_gossip_duplicate_confirmed_slots`, `core/src/replay_stage.rs`) -/

/-- Observable effects of ingesting gossip duplicate-confirmed pairs: a
map insertion, or a `check_slot_agrees_with_cluster(...,
SlotStateUpdate::DuplicateConfirmed)` call (the check itself is external
to the staged files). -/
inductive GossipEvent where
  | inserted (slot hash : Nat)
  | duplicateConfirmedCheck (slot : Nat)
  deriving DecidableEq, Repr

/-- How the drain ended: all received batches processed, an early `return`
on re-inserting an already-present slot, or an `assert_eq!` panic on a
conflicting hash. -/
inductive GossipOutcome where
  | drained
  | returnedEarly
  | panicked
  deriving DecidableEq, Repr

/-- Lookup in the `GossipDuplicateConfirmedSlots` map (a `BTreeMap<Slot,
Hash>`, modelled as an association list). -/
def gdcLookup : List (Nat × Nat) → Nat → Option Nat
  | [], _ => none
  | (s, h) :: rest, slot => if s = slot then some h else gdcLookup rest slot

/-- `BTreeMap::insert`: replace the binding of `slot` or append it. -/
def gdcInsert : List (Nat × Nat) → Nat → Nat → List (Nat × Nat)
  | [], slot, hash => [(slot, hash)]
  | (s, h) :: rest, slot, hash =>
    if s = slot then (slot, hash) :: rest
    else (s, h) :: gdcInsert rest slot hash

/-- The inner loop of `process_gossip_duplicate_confirmed_slots` over one
received batch of `(slot, hash)` pairs: pairs at or below the root are
skipped (`continue`); a pair whose slot is not yet present is inserted and
triggers the duplicate-confirmed check; a pair whose slot is already
present is re-inserted, asserted to carry an equal hash, and causes a
`return` from the whole drain ("Already processed this signal"). -/
def processConfirmedBatch (root : Nat) :
    List (Nat × Nat) → List (Nat × Nat) →
    List (Nat × Nat) × List GossipEvent × GossipOutcome
  | [], m => (m, [], .drained)
  | (slot, hash) :: rest, m =>
    if slot ≤ root then processConfirmedBatch root rest m
    else
      match gdcLookup m slot with
      | some prevHash =>
        let m2 := gdcInsert m slot hash
        if prevHash = hash then (m2, [.inserted slot hash], .returnedEarly)
        else (m2, [.inserted slot hash], .panicked)
      | none =>
        let r := processConfirmedBatch root rest (gdcInsert m slot hash)
        (r.1, .inserted slot hash :: .duplicateConfirmedCheck slot :: r.2.1,
          r.2.2)

/-- `process_gossip_duplicate_confirmed_slots` from
`core/src/replay_stage.rs`: drain the received batches in order; a
non-`drained` inner outcome (early return or panic) stops the drain. -/
def process_gossip_duplicate_confirmed_slots (root : Nat) :
    List (List (Nat × Nat)) → List (Nat × Nat) →
    List (Nat × Nat) × List GossipEvent × GossipOutcome
  | [], m => (m, [], .drained)
  | batch :: more, m =>
    let r := processConfirmedBatch root batch m
    match r.2.2 with
    | .drained =>
      let r2 := process_gossip_duplicate_confirmed_slots root more r.1
      (r2.1, r.2.1 ++ r2.2.1, r2.2.2)
    | out => (r.1, r.2.1, out)

/-- C3 counterexample.  First conjunct: the received pair `(5, 9)` with
slot 5 equal to the root 5 is neither inserted (the guard is
`confirmed_slot <= root`, not `< root`) nor checked, refuting "every pair
whose slot is ≥ the current root is inserted".  Remaining conjuncts: with
`(6, 42)` already present, draining `[(6, 42), (7, 1)]` re-inserts 6 and
then returns from the whole drain, so no check fires for slot 6 and the
later pair `(7, 1)` — slot 7 > root — is never inserted nor checked,
refuting "each such received pair is processed this way". -/
theorem gossip_duplicate_confirmed_claim_refuted :
    ((process_gossip_duplicate_confirmed_slots 5 [[(5, 9)]] []).1 = []
      ∧ ¬ GossipEvent.duplicateConfirmedCheck 5 ∈
          (process_gossip_duplicate_confirmed_slots 5 [[(5, 9)]] []).2.1)
    ∧ ¬ GossipEvent.inserted 7 1 ∈
        (process_gossip_duplicate_confirmed_slots 5 [[(6, 42), (7, 1)]]
          [(6, 42)]).2.1
    ∧ ¬ GossipEvent.duplicateConfirmedCheck 7 ∈
        (process_gossip_duplicate_confirmed_slots 5 [[(6, 42), (7, 1)]]
          [(6, 42)]).2.1
    ∧ ¬ GossipEvent.duplicateConfirmedCheck 6 ∈
        (process_gossip_duplicate_confirmed_slots 5 [[(6, 42), (7, 1)]]
          [(6, 42)]).2.1
    ∧ (process_gossip_duplicate_confirmed_slots 5 [[(6, 42), (7, 1)]]
        [(6, 42)]).2.2 = .returnedEarly := by
  decide

/-- C3 (amended): pairs are processed in order until the drain stops.  A
pair with slot ≤ root is skipped; a pair with slot > root whose slot is not
yet in `GossipDuplicateConfirmedSlots` is inserted and triggers the
cluster check with state `DuplicateConfirmed`; a pair with slot > root
whose slot is already present is re-inserted with its hash asserted equal
(panic on mismatch) and terminates the whole drain without a check; a
batch that drains completely is followed by the remaining batches. -/
theorem gossip_duplicate_confirmed_step_behaviour (root slot hash : Nat)
    (rest : List (Nat × Nat)) (m : List (Nat × Nat))
    (batch : List (Nat × Nat)) (more : List (List (Nat × Nat))) :
    (slot ≤ root →
      processConfirmedBatch root ((slot, hash) :: rest) m
        = processConfirmedBatch root rest m)
    ∧ (root < slot → gdcLookup m slot = none →
        processConfirmedBatch root ((slot, hash) :: rest) m
          = ((processConfirmedBatch root rest (gdcInsert m slot hash)).1,
              .inserted slot hash :: .duplicateConfirmedCheck slot ::
                (processConfirmedBatch root rest
                  (gdcInsert m slot hash)).2.1,
              (processConfirmedBatch root rest
                (gdcInsert m slot hash)).2.2))
    ∧ (root < slot → gdcLookup m slot = some hash →
        processConfirmedBatch root ((slot, hash) :: rest) m
          = (gdcInsert m slot hash, [.inserted slot hash], .returnedEarly))
    ∧ (∀ prevHash, root < slot → gdcLookup m slot = some prevHash →
        prevHash ≠ hash →
        processConfirmedBatch root ((slot, hash) :: rest) m
          = (gdcInsert m slot hash, [.inserted slot hash], .panicked))
    ∧ ((processConfirmedBatch root batch m).2.2 = .drained →
        process_gossip_duplicate_confirmed_slots root (batch :: more) m
          = ((process_gossip_duplicate_confirmed_slots root more
                (processConfirmedBatch root batch m).1).1,
              (processConfirmedBatch root batch m).2.1 ++
                (process_gossip_duplicate_confirmed_slots root more
                  (processConfirmedBatch root batch m).1).2.1,
              (process_gossip_duplicate_confirmed_slots root more
                (processConfirmedBatch root batch m).1).2.2))
    ∧ (∀ out, (processConfirmedBatch root batch m).2.2 = out →
        out ≠ .drained →
        process_gossip_duplicate_confirmed_slots root (batch :: more) m
          = ((processConfirmedBatch root batch m).1,
              (processConfirmedBatch root batch m).2.1, out)) := by
  refine ⟨?_, ?_, ?_, ?_, ?_, ?_⟩
  · intro hle
    rw [processConfirmedBatch, if_pos hle]
  · intro hgt hnone
    rw [processConfirmedBatch, if_neg (Nat.not_le_of_lt hgt), hnone]
  · intro hgt hsome
    rw [processConfirmedBatch, if_neg (Nat.not_le_of_lt hgt), hsome]
    simp
  · intro prevHash hgt hsome hne
    rw [processConfirmedBatch, if_neg (Nat.not_le_of_lt hgt), hsome]
    simp [hne]
  · intro hdrained
    rw [process_gossip_duplicate_confirmed_slots, hdrained]
  · intro out hout hne
    rw [process_gossip_duplicate_confirmed_slots, hout]
    cases out with
    | drained => exact absurd rfl hne
    | returnedEarly => rfl
    | panicked => rfl

/-- Witness for `gossip_duplicate_confirmed_step_behaviour`: a fresh pair
above the root is inserted and checked. -/
theorem gossip_duplicate_confirmed_step_behaviour_witness :
    processConfirmedBatch 5 [(6, 42)] []
      = ([(6, 42)],
          [.inserted 6 42, .duplicateConfirmedCheck 6], .drained) := by
  have h := (gossip_duplicate_confirmed_step_behaviour 5 6 42 [] [] []
    []).2.1 (by decide) rfl
  simpa using h

/-! ### Vote emission (`handle_votable_bank`, `push_vote`,
`core/src/replay_stage.rs`) -/

/-- The Tower state, reduced to the part `handle_votable_bank` records and
transmits: the last vote (`record_bank_vote` sets it to the voted bank's
slot; lockout bookkeeping and root detection are external). -/
structure Tower where
  lastVote : Option Nat
  deriving DecidableEq, Repr

/-- Ordered observable effects of `handle_votable_bank`: a successful
durable `tower.save` (carrying the tower's recorded last vote), the
`std::process::exit(1)` on a save failure, root handling, the commitment
cache update, and the transmission of a vote transaction for a slot
(`cluster_info.send_vote` / `push_vote`). -/
inductive VoteEvent where
  | towerSaved (lastVote : Option Nat)
  | processExit
  | newRootHandled (root : Nat)
  | commitmentUpdated
  | voteTransmitted (slot : Nat)
  deriving DecidableEq, Repr

/-- `push_vote` from `core/src/replay_stage.rs`: generate the vote
transaction for `tower.last_vote()` (`genOk` models whether
`generate_vote_tx` returns `Some` — voter keypairs present, vote account
readable, authorized voter available) and, if generated, send and push it.
-/
def push_vote (tower : Tower) (genOk : Bool) : List VoteEvent :=
  match tower.lastVote, genOk with
  | some s, true => [.voteTransmitted s]
  | _, _ => []

/-- `handle_votable_bank` from `core/src/replay_stage.rs`:
`tower.record_bank_vote` records the vote (the returned new root is the
oracle `newRoot`); `tower.save` is durably persisted — on failure the
process exits; then root handling, the commitment-cache update, and
`push_vote`. -/
def handle_votable_bank (tower : Tower) (bankSlot : Nat)
    (newRoot : Option Nat) (saveOk genOk : Bool) :
    Tower × List VoteEvent :=
  let tower1 : Tower := { tower with lastVote := some bankSlot }
  if saveOk then
    let rootEvents : List VoteEvent :=
      match newRoot with
      | some r => [.newRootHandled r]
      | none => []
    (tower1, [VoteEvent.towerSaved tower1.lastVote] ++ rootEvents
      ++ [VoteEvent.commitmentUpdated] ++ push_vote tower1 genOk)
  else (tower1, [VoteEvent.processExit])

/-- C1: a Tower save failure terminates the process with no transmission;
every transmitted vote transaction votes the recorded bank slot and is
possible only after a successful save; and on the save path the very first
emitted effect is the durable save of the Tower carrying that vote, so the
transmission (if any) is strictly after it. -/
theorem tower_saved_before_vote_transmitted (tower : Tower) (bankSlot : Nat)
    (newRoot : Option Nat) (saveOk genOk : Bool) :
    (saveOk = false →
      (handle_votable_bank tower bankSlot newRoot saveOk genOk).2
        = [.processExit])
    ∧ (∀ s, .voteTransmitted s ∈
        (handle_votable_bank tower bankSlot newRoot saveOk genOk).2 →
        saveOk = true ∧ s = bankSlot)
    ∧ (saveOk = true →
      (handle_votable_bank tower bankSlot newRoot saveOk genOk).2.head?
        = some (.towerSaved (some bankSlot))
      ∧ ∀ i : Nat, ∀ s,
          (handle_votable_bank tower bankSlot newRoot saveOk genOk).2[i]?
            = some (.voteTransmitted s) →
          ∃ j : Nat, j < i ∧
            (handle_votable_bank tower bankSlot newRoot saveOk genOk).2[j]?
              = some (.towerSaved (some bankSlot))) := by
  cases saveOk with
  | false =>
    refine ⟨fun _ => rfl, ?_, fun h => absurd h (by simp)⟩
    intro s hs
    simp [handle_votable_bank] at hs
  | true =>
    refine ⟨fun h => absurd h (by simp), ?_, ?_⟩
    · intro s hs
      cases newRoot <;> cases genOk <;>
        simp [handle_votable_bank, push_vote] at hs <;>
        exact ⟨rfl, hs⟩
    · intro _
      refine ⟨by cases newRoot <;> cases genOk <;> rfl, ?_⟩
      intro i s hs
      refine ⟨0, ?_, by cases newRoot <;> cases genOk <;> rfl⟩
      cases i with
      | zero =>
        exfalso
        cases newRoot <;> cases genOk <;> simp [handle_votable_bank] at hs
      | succ i' => exact Nat.succ_pos i'

/-- Witness for `tower_saved_before_vote_transmitted`: a failing save
yields only the process exit. -/
theorem tower_saved_before_vote_transmitted_witness :
    (handle_votable_bank ⟨some 1⟩ 3 none false true).2 = [.processExit] :=
  (tower_saved_before_vote_transmitted ⟨some 1⟩ 3 none false true).1 rfl

/-! ### Propagation status updates
(`update_slot_propagated_threshold_from_votes`,
`update_fork_propagated_threshold_from_votes`, `core/src/replay_stage.rs`
and `PropagatedStats` from `core/src/progress_map.rs`) -/

/-- `PropagatedStats` from `core/src/progress_map.rs` (the pubkey sets are
modelled as lists without duplicates by construction; the vote-tracker
handles are external and dropped). -/
structure PropagatedStats where
  propagated_validators : List Nat
  propagated_node_ids : List Nat
  propagated_validators_stake : Nat
  is_propagated : Bool
  is_leader_slot : Bool
  prev_leader_slot : Option Nat
  total_epoch_stake : Nat
  deriving DecidableEq, Repr

/-- The bank lookups the propagation update makes:
`epoch_vote_account_stake` (also used for the
`epoch_vote_accounts.get(..).unwrap_or(0)` lookup of
`add_node_pubkey_internal`), and `epoch_vote_accounts_for_node_id`
restricted to its vote-account pubkey list. -/
structure PropBank where
  epoch_vote_account_stake : Nat → Nat
  node_vote_accounts : Nat → Option (List Nat)

/-- `PropagatedStats::add_vote_pubkey`: insert the vote pubkey and, when
newly inserted, add its stake. -/
def PropagatedStats.add_vote_pubkey (s : PropagatedStats)
    (pk stake : Nat) : PropagatedStats :=
  if pk ∈ s.propagated_validators then s
  else
    { s with
      propagated_validators := pk :: s.propagated_validators,
      propagated_validators_stake := s.propagated_validators_stake + stake }

/-- `PropagatedStats::add_node_pubkey_internal`: record the node id and add
every one of the node's vote accounts with its epoch stake. -/
def PropagatedStats.add_node_pubkey_internal (s : PropagatedStats)
    (node : Nat) (voteAccountPubkeys : List Nat) (stakeOf : Nat → Nat) :
    PropagatedStats :=
  voteAccountPubkeys.foldl
    (fun st pk => st.add_vote_pubkey pk (stakeOf pk))
    { s with propagated_node_ids := node :: s.propagated_node_ids }

/-- `PropagatedStats::add_node_pubkey`: for a not-yet-seen node id with
known vote accounts, record it via `add_node_pubkey_internal`. -/
def PropagatedStats.add_node_pubkey (s : PropagatedStats) (node : Nat)
    (bank : PropBank) : PropagatedStats :=
  if node ∈ s.propagated_node_ids then s
  else
    match bank.node_vote_accounts node with
    | some accts =>
      s.add_node_pubkey_internal node accts bank.epoch_vote_account_stake
    | none => s

/-- The `newly_voted_pubkeys.retain(...)` loop: each pubkey is added to the
stats (with its epoch stake) and kept exactly when it was not already
recorded; returns the updated stats and the retained list, in order. -/
def retainVotePubkeys (st : PropagatedStats) (stakeOf : Nat → Nat)
    (pks : List Nat) : PropagatedStats × List Nat :=
  pks.foldl
    (fun acc pk =>
      let alreadyThere := pk ∈ acc.1.propagated_validators
      (acc.1.add_vote_pubkey pk (stakeOf pk),
        if alreadyThere then acc.2 else acc.2 ++ [pk]))
    (st, [])

/-- The `cluster_slot_pubkeys.retain(...)` loop, analogously over node
ids. -/
def retainNodePubkeys (st : PropagatedStats) (bank : PropBank)
    (pks : List Nat) : PropagatedStats × List Nat :=
  pks.foldl
    (fun acc pk =>
      let alreadyThere := pk ∈ acc.1.propagated_node_ids
      (acc.1.add_node_pubkey pk bank,
        if alreadyThere then acc.2 else acc.2 ++ [pk]))
    (st, [])

/-- `update_slot_propagated_threshold_from_votes` from
`core/src/replay_stage.rs`.  The `SUPERMINORITY_THRESHOLD = 1/3` f64
comparison `propagated_validators_stake as f64 / total_epoch_stake as f64 >
SUPERMINORITY_THRESHOLD` is modelled exactly over the rationals as
`total_epoch_stake < 3 * propagated_validators_stake`.  Returns the
retained pubkey lists, the updated stats, and whether the slot newly
reached the propagation threshold. -/
def update_slot_propagated_threshold_from_votes (bank : PropBank)
    (newlyVotedPubkeys clusterSlotPubkeys : List Nat)
    (st : PropagatedStats) (didChildReachThreshold : Bool) :
    List Nat × List Nat × PropagatedStats × Bool :=
  if didChildReachThreshold then
    if !st.is_propagated then
      (newlyVotedPubkeys, clusterSlotPubkeys,
        { st with is_propagated := true }, true)
    else (newlyVotedPubkeys, clusterSlotPubkeys, st, false)
  else if st.is_propagated then
    (newlyVotedPubkeys, clusterSlotPubkeys, st, false)
  else
    let r1 := retainVotePubkeys st bank.epoch_vote_account_stake
      newlyVotedPubkeys
    let r2 := retainNodePubkeys r1.1 bank clusterSlotPubkeys
    if r2.1.total_epoch_stake = 0
        ∨ r2.1.total_epoch_stake < 3 * r2.1.propagated_validators_stake then
      (r1.2, r2.2, { r2.1 with is_propagated := true }, true)
    else (r1.2, r2.2, r2.1, false)

/-- The progress map restricted to propagated stats, as a partial
function. -/
abbrev PropProgressMap := Nat → Option PropagatedStats

/-- Pointwise update of one slot's propagated stats. -/
def ppUpdate (m : PropProgressMap) (slot : Nat) (st : PropagatedStats) :
    PropProgressMap :=
  fun s => if s = slot then some st else m s

/-- `ProgressMap::get_latest_leader_slot` from
`core/src/progress_map.rs` (the source `expect`s the slot to be present;
an absent slot is modelled as no leader chain). -/
def get_latest_leader_slot (m : PropProgressMap) (slot : Nat) :
    Option Nat :=
  match m slot with
  | none => none
  | some st => if st.is_leader_slot then some slot else st.prev_leader_slot

/-- The back-propagation loop of
`update_fork_propagated_threshold_from_votes`, walking the
`prev_leader_slot` chain.  `fuel` bounds the walk (the source loop
terminates because the chain strictly descends); the source's `expect` on
a missing entry and its `assert!(is_leader_slot)` are panics, modelled by
stopping with the map as mutated so far. -/
def updateForkLoop (bank : PropBank) (root : Nat) :
    Nat → PropProgressMap → List Nat → List Nat → Option Nat → Bool →
    PropProgressMap
  | 0, m, _, _, _, _ => m
  | fuel + 1, m, nv, cs, cur, didNew =>
    match cur with
    | none => m
    | some slot =>
      if slot < root then m
      else
        match m slot with
        | none => m
        | some st =>
          if st.is_propagated
              ∨ (nv.isEmpty ∧ cs.isEmpty ∧ didNew = false) then m
          else if !st.is_leader_slot then m
          else
            let r := update_slot_propagated_threshold_from_votes bank nv cs
              st didNew
            updateForkLoop bank root fuel (ppUpdate m slot r.2.2.1) r.1
              r.2.1 r.2.2.1.prev_leader_slot (r.2.2.2 || didNew)

/-- `update_fork_propagated_threshold_from_votes` from
`core/src/replay_stage.rs`: start at the fork tip's latest leader slot and
walk backwards. -/
def update_fork_propagated_threshold_from_votes (bank : PropBank)
    (root fuel : Nat) (m : PropProgressMap)
    (newlyVotedPubkeys clusterSlotPubkeys : List Nat) (forkTip : Nat) :
    PropProgressMap :=
  updateForkLoop bank root fuel m newlyVotedPubkeys clusterSlotPubkeys
    (get_latest_leader_slot m forkTip) false

lemma add_vote_pubkey_preserves (s : PropagatedStats) (pk stake : Nat) :
    (s.add_vote_pubkey pk stake).is_propagated = s.is_propagated
    ∧ (s.add_vote_pubkey pk stake).total_epoch_stake
        = s.total_epoch_stake := by
  unfold PropagatedStats.add_vote_pubkey
  split <;> simp

lemma foldl_add_vote_preserves (stakeOf : Nat → Nat) :
    ∀ (accts : List Nat) (s : PropagatedStats),
    ((accts.foldl (fun st pk => st.add_vote_pubkey pk (stakeOf pk))
        s).is_propagated = s.is_propagated)
    ∧ ((accts.foldl (fun st pk => st.add_vote_pubkey pk (stakeOf pk))
        s).total_epoch_stake = s.total_epoch_stake) := by
  intro accts
  induction accts with
  | nil => intro s; exact ⟨rfl, rfl⟩
  | cons pk rest ih =>
    intro s
    rw [List.foldl_cons]
    obtain ⟨h1, h2⟩ := ih (s.add_vote_pubkey pk (stakeOf pk))
    obtain ⟨g1, g2⟩ := add_vote_pubkey_preserves s pk (stakeOf pk)
    exact ⟨h1.trans g1, h2.trans g2⟩

lemma add_node_pubkey_preserves (s : PropagatedStats) (node : Nat)
    (bank : PropBank) :
    (s.add_node_pubkey node bank).is_propagated = s.is_propagated
    ∧ (s.add_node_pubkey node bank).total_epoch_stake
        = s.total_epoch_stake := by
  unfold PropagatedStats.add_node_pubkey
  split
  · exact ⟨rfl, rfl⟩
  · cases h : bank.node_vote_accounts node with
    | none => exact ⟨rfl, rfl⟩
    | some accts =>
      unfold PropagatedStats.add_node_pubkey_internal
      obtain ⟨h1, h2⟩ := foldl_add_vote_preserves
        bank.epoch_vote_account_stake accts
        { s with propagated_node_ids := node :: s.propagated_node_ids }
      exact ⟨h1, h2⟩

lemma retainVotePubkeys_preserves (st : PropagatedStats)
    (stakeOf : Nat → Nat) (pks : List Nat) :
    (retainVotePubkeys st stakeOf pks).1.is_propagated = st.is_propagated
    ∧ (retainVotePubkeys st stakeOf pks).1.total_epoch_stake
        = st.total_epoch_stake := by
  unfold retainVotePubkeys
  suffices h : ∀ (pks : List Nat) (acc : PropagatedStats × List Nat),
      ((pks.foldl (fun acc pk =>
          (acc.1.add_vote_pubkey pk (stakeOf pk),
            if pk ∈ acc.1.propagated_validators then acc.2
            else acc.2 ++ [pk])) acc).1.is_propagated
        = acc.1.is_propagated)
      ∧ ((pks.foldl (fun acc pk =>
          (acc.1.add_vote_pubkey pk (stakeOf pk),
            if pk ∈ acc.1.propagated_validators then acc.2
            else acc.2 ++ [pk])) acc).1.total_epoch_stake
        = acc.1.total_epoch_stake) by
    exact h pks (st, [])
  intro pks
  induction pks with
  | nil => intro acc; exact ⟨rfl, rfl⟩
  | cons pk rest ih =>
    intro acc
    rw [List.foldl_cons]
    obtain ⟨h1, h2⟩ := ih (acc.1.add_vote_pubkey pk (stakeOf pk),
      if pk ∈ acc.1.propagated_validators then acc.2 else acc.2 ++ [pk])
    obtain ⟨g1, g2⟩ := add_vote_pubkey_preserves acc.1 pk (stakeOf pk)
    exact ⟨h1.trans g1, h2.trans g2⟩

lemma retainNodePubkeys_preserves (st : PropagatedStats) (bank : PropBank)
    (pks : List Nat) :
    (retainNodePubkeys st bank pks).1.is_propagated = st.is_propagated
    ∧ (retainNodePubkeys st bank pks).1.total_epoch_stake
        = st.total_epoch_stake := by
  unfold retainNodePubkeys
  suffices h : ∀ (pks : List Nat) (acc : PropagatedStats × List Nat),
      ((pks.foldl (fun acc pk =>
          (acc.1.add_node_pubkey pk bank,
            if pk ∈ acc.1.propagated_node_ids then acc.2
            else acc.2 ++ [pk])) acc).1.is_propagated
        = acc.1.is_propagated)
      ∧ ((pks.foldl (fun acc pk =>
          (acc.1.add_node_pubkey pk bank,
            if pk ∈ acc.1.propagated_node_ids then acc.2
            else acc.2 ++ [pk])) acc).1.total_epoch_stake
        = acc.1.total_epoch_stake) by
    exact h pks (st, [])
  intro pks
  induction pks with
  | nil => intro acc; exact ⟨rfl, rfl⟩
  | cons pk rest ih =>
    intro acc
    rw [List.foldl_cons]
    obtain ⟨h1, h2⟩ := ih (acc.1.add_node_pubkey pk bank,
      if pk ∈ acc.1.propagated_node_ids then acc.2 else acc.2 ++ [pk])
    obtain ⟨g1, g2⟩ := add_node_pubkey_preserves acc.1 pk bank
    exact ⟨h1.trans g1, h2.trans g2⟩

/-- C9: the `is_propagated` flag is monotone.
`update_slot_propagated_threshold_from_votes` never clears it, and sets it
from false to true only when a child reached the threshold, the epoch stake
is zero, or the accumulated propagated stake strictly exceeds the `1/3`
superminority threshold of the epoch stake (first conjunct); the
back-propagation loop of `update_fork_propagated_threshold_from_votes`
preserves a true flag at every slot of the progress map, for every fuel
(second conjunct). -/
theorem is_propagated_monotone (bank : PropBank) (root : Nat) :
    (∀ (nv cs : List Nat) (st : PropagatedStats) (didChild : Bool),
      (st.is_propagated = true →
        (update_slot_propagated_threshold_from_votes bank nv cs st
            didChild).2.2.1.is_propagated = true)
      ∧ ((update_slot_propagated_threshold_from_votes bank nv cs st
            didChild).2.2.1.is_propagated = true →
          st.is_propagated = true ∨ didChild = true
          ∨ (update_slot_propagated_threshold_from_votes bank nv cs st
              didChild).2.2.1.total_epoch_stake = 0
          ∨ (update_slot_propagated_threshold_from_votes bank nv cs st
              didChild).2.2.1.total_epoch_stake
            < 3 * (update_slot_propagated_threshold_from_votes bank nv cs
                st didChild).2.2.1.propagated_validators_stake))
    ∧ (∀ (fuel : Nat) (m : PropProgressMap) (nv cs : List Nat)
        (cur : Option Nat) (didNew : Bool) (slot : Nat)
        (st : PropagatedStats),
        m slot = some st → st.is_propagated = true →
        ∃ st2,
          updateForkLoop bank root fuel m nv cs cur didNew slot = some st2
          ∧ st2.is_propagated = true) := by
  constructor
  · intro nv cs st didChild
    constructor
    · intro hst
      unfold update_slot_propagated_threshold_from_votes
      cases didChild <;> simp [hst]
    · intro hres
      unfold update_slot_propagated_threshold_from_votes at hres
      cases didChild with
      | true => exact Or.inr (Or.inl rfl)
      | false =>
        by_cases hst : st.is_propagated
        · exact Or.inl hst
        · simp only [hst, Bool.false_eq_true, if_false, if_neg] at hres
          by_cases hcond :
              (retainNodePubkeys
                (retainVotePubkeys st bank.epoch_vote_account_stake
                  nv).1 bank cs).1.total_epoch_stake = 0
              ∨ (retainNodePubkeys
                  (retainVotePubkeys st bank.epoch_vote_account_stake
                    nv).1 bank cs).1.total_epoch_stake
                < 3 * (retainNodePubkeys
                    (retainVotePubkeys st bank.epoch_vote_account_stake
                      nv).1 bank cs).1.propagated_validators_stake
          · right; right
            unfold update_slot_propagated_threshold_from_votes
            simp only [hst, Bool.false_eq_true, if_false, if_neg,
              if_pos hcond]
            simpa using hcond
          · exfalso
            rw [if_neg hcond] at hres
            have h1 := (retainNodePubkeys_preserves
              (retainVotePubkeys st bank.epoch_vote_account_stake nv).1
              bank cs).1
            have h2 := (retainVotePubkeys_preserves st
              bank.epoch_vote_account_stake nv).1
            rw [hres] at h1
            rw [h2] at h1
            exact hst h1.symm
  · intro fuel
    induction fuel with
    | zero =>
      intro m nv cs cur didNew slot st hm hst
      exact ⟨st, hm, hst⟩
    | succ fuel ih =>
      intro m nv cs cur didNew slot st hm hst
      cases cur with
      | none =>
        rw [updateForkLoop]
        exact ⟨st, hm, hst⟩
      | some slot0 =>
        rw [updateForkLoop]
        by_cases hroot : slot0 < root
        · rw [if_pos hroot]; exact ⟨st, hm, hst⟩
        · rw [if_neg hroot]
          cases hm0 : m slot0 with
          | none => exact ⟨st, hm, hst⟩
          | some st0 =>
            dsimp only
            by_cases hbrk : st0.is_propagated
                ∨ (nv.isEmpty ∧ cs.isEmpty ∧ didNew = false)
            · rw [if_pos hbrk]; exact ⟨st, hm, hst⟩
            · rw [if_neg hbrk]
              by_cases hlead : st0.is_leader_slot
              · have hl : (!st0.is_leader_slot) = false := by simp [hlead]
                rw [hl]
                simp only [Bool.false_eq_true, if_false]
                apply ih
                · unfold ppUpdate
                  by_cases heq : slot = slot0
                  · exfalso
                    rw [heq, hm0] at hm
                    obtain rfl : st0 = st := by
                      injection hm
                    have : st0.is_propagated := hst
                    exact hbrk (Or.inl this)
                  · rw [if_neg heq]
                    exact hm
                · exact hst
              · have hl : (!st0.is_leader_slot) = true := by simp [hlead]
                rw [hl]
                simp only [if_true]
                exact ⟨st, hm, hst⟩

/-- A bank with no stakes and no node vote-account data, for concrete
instantiation. -/
def zeroPropBank : PropBank := ⟨fun _ => 0, fun _ => none⟩

/-- Witness for `is_propagated_monotone`: a slot already propagated stays
propagated across the fork-loop. -/
theorem is_propagated_monotone_witness :
    ∃ st2,
      updateForkLoop zeroPropBank 0 0
        (fun _ => some ⟨[], [], 0, true, false, none, 0⟩) [] [] none false 3
        = some st2
      ∧ st2.is_propagated = true :=
  (is_propagated_monotone zeroPropBank 0).2 0
    (fun _ => some ⟨[], [], 0, true, false, none, 0⟩) [] [] none false 3
    ⟨[], [], 0, true, false, none, 0⟩ rfl rfl

end SolanaCore
